import Mathlib

/-!
Verification of the terraria_cool_colorer proxy.

Shallow embedding of `src/colorer.rs` and `src/main.rs`:
* Rust `String` / `&str` values are modelled as `List Char` (Rust strings are
  always iterated via `chars()` in this code).
* Byte buffers (`&[u8]`, `Vec<u8>`) are `List Nat`, each element a byte value.
* `f32` arithmetic is modelled over `Rat`; the rounding and casting behaviour
  of the few float-to-integer conversions is modelled explicitly.
* `rand::random` is modelled by an explicit stream of rationals (`Rng`); every
  function that may draw randomness threads the stream.
* A Rust panic (the `todo!()` in the `Cubic` arm) is modelled as `none`.
-/

set_option autoImplicit false

/-- `Interpolation` enum from `src/colorer.rs`. -/
inductive Interpolation where
  | Random
  | Nearest
  | Linear
  | Cubic
deriving DecidableEq, Repr

/-- `Color` struct from `src/colorer.rs`: three `u8` channels, modelled as `Nat`. -/
structure Color where
  r : Nat
  g : Nat
  b : Nat
deriving DecidableEq, Repr

/-- Explicit random source: a stream of rational values in place of
`rand::random::<f32>()`, with a cursor. -/
structure Rng where
  stream : Nat → Rat
  pos : Nat

instance : Inhabited Rng :=
  ⟨⟨fun _ => 0, 0⟩⟩

/-- Draw one random value and advance the cursor. -/
def Rng.next (rng : Rng) : Rat × Rng :=
  (rng.stream rng.pos, ⟨rng.stream, rng.pos + 1⟩)

/-- `f32::round`: round half away from zero, modelled on `Rat`. -/
def roundHalfAway (q : Rat) : Int :=
  if 0 ≤ q then ⌊q + 1/2⌋ else -⌊-q + 1/2⌋

/-- Rust `as u8` cast of a rounded `f32`: saturating into `[0, 255]`. -/
def f32ToU8 (q : Rat) : Nat :=
  min (roundHalfAway q).toNat 255

/-- Rust `f32` truncation toward zero. -/
def ratTrunc (q : Rat) : Int :=
  if 0 ≤ q then ⌊q⌋ else ⌈q⌉

/-- `f32::fract`: the value minus its truncation toward zero. -/
def ratFract (q : Rat) : Rat :=
  q - ratTrunc q

/-- `f32 as usize` cast of a floored value: negative values clamp to zero. -/
def floorToUsize (q : Rat) : Nat :=
  (⌊q⌋).toNat

/-- `f32 as usize` cast of a ceiled value: negative values clamp to zero. -/
def ceilToUsize (q : Rat) : Nat :=
  (⌈q⌉).toNat

/-- `Color::interpolate` from `src/colorer.rs`.  The per-channel closure of
`interpolate_inner` is applied to the `r`, `g`, `b` channels in that order;
in the `Random` arm each channel draws one fresh random value.  The `Cubic`
arm runs `todo!()` on the first channel and panics, modelled as `none`. -/
def Color.interpolate (self other : Color) (amount : Rat)
    (interpolation : Interpolation) (rng : Rng) : Option (Color × Rng) :=
  match interpolation with
  | .Random =>
    let (vr, rng1) := rng.next
    let (vg, rng2) := rng1.next
    let (vb, rng3) := rng2.next
    some (⟨if vr < 1/2 then self.r else other.r,
           if vg < 1/2 then self.g else other.g,
           if vb < 1/2 then self.b else other.b⟩, rng3)
  | .Nearest =>
    some (⟨if amount < 1/2 then self.r else other.r,
           if amount < 1/2 then self.g else other.g,
           if amount < 1/2 then self.b else other.b⟩, rng)
  | .Linear =>
    some (⟨f32ToU8 ((self.r : Rat) + ((other.r : Rat) - (self.r : Rat)) * amount),
           f32ToU8 ((self.g : Rat) + ((other.g : Rat) - (self.g : Rat)) * amount),
           f32ToU8 ((self.b : Rat) + ((other.b : Rat) - (self.b : Rat)) * amount)⟩, rng)
  | .Cubic => none

/-- One lowercase hexadecimal digit, as produced by the `{:02x}` format. -/
def hexDigit (d : Nat) : Char :=
  Char.ofNat (if d < 10 then 48 + d else 87 + d)

/-- `{:02x}` rendering of one `u8` channel: exactly two lowercase hex digits. -/
def hex2 (n : Nat) : List Char :=
  [hexDigit (n / 16 % 16), hexDigit (n % 16)]

/-- `impl fmt::Display for Color` from `src/colorer.rs`: six lowercase,
zero-padded hex digits. -/
def Color.hex (c : Color) : List Char :=
  hex2 c.r ++ hex2 c.g ++ hex2 c.b

/-- `Colorer` struct from `src/colorer.rs`.  The `repeat` field is named
`repeatFactor` because `repeat` is a Lean keyword. -/
structure Colorer where
  colors : List Color
  shift : Option Rat
  interpolation : Interpolation
  repeatFactor : Rat

/-- `Colorer::solid`: the single color when the gradient is degenerate. -/
def Colorer.solid (col : Colorer) : Option Color :=
  if col.colors.length = 1 then some (col.colors.getD 0 ⟨0, 0, 0⟩) else none

/-- `Colorer::word`: redraw the phase shift when shifting is enabled. -/
def Colorer.word (col : Colorer) (rng : Rng) : Colorer × Rng :=
  match col.shift with
  | some _ =>
    let (v, rng2) := rng.next
    ({ col with shift := some v }, rng2)
  | none => (col, rng)

/-- `Colorer::interpolate` from `src/colorer.rs`: wrap the right index to `0`
when it reaches the color count, then interpolate the two colors. -/
def Colorer.interpolate (col : Colorer) (left right : Nat) (amount : Rat)
    (rng : Rng) : Option (Color × Rng) :=
  let right2 := if right ≥ col.colors.length then 0 else right
  Color.interpolate (col.colors.getD left ⟨0, 0, 0⟩) (col.colors.getD right2 ⟨0, 0, 0⟩)
    amount col.interpolation rng

/-- The `color_position` computation inside `Colorer::color`: scale by the
repeat factor, add the phase shift when present, wrap once past the repeat
factor, then scale by `max_val`. -/
def Colorer.colorPositionOf (col : Colorer) (position : Rat) : Rat :=
  let p1 := position * col.repeatFactor
  let p2 := match col.shift with
    | some amount => p1 + amount
    | none => p1
  let p3 := if p2 ≥ col.repeatFactor then p2 - col.repeatFactor else p2
  let maxVal : Nat := if col.shift.isNone then col.colors.length - 1
    else col.colors.length
  (maxVal : Rat) * p3

/-- `Colorer::color` from `src/colorer.rs`: a space is returned bare; otherwise
the character is wrapped in a `[c/RRGGBB:X]` tag whose color comes either from
the degenerate gradient or from position arithmetic over the gradient. -/
def Colorer.color (col : Colorer) (c : Char) (position : Rat) (rng : Rng) :
    Option (List Char × Rng) :=
  if c = ' ' then some ([c], rng)
  else
    let res : Option (Color × Rng) :=
      if col.colors.length = 1 then some (col.colors.getD 0 ⟨0, 0, 0⟩, rng)
      else
        let colorPosition := col.colorPositionOf position
        col.interpolate (floorToUsize colorPosition % col.colors.length)
          (ceilToUsize colorPosition % col.colors.length)
          (ratFract colorPosition) rng
    res.map fun p => ('[' :: 'c' :: '/' :: (p.1.hex ++ [':'] ++ [c] ++ [']']), p.2)

/-- Peek test used by the solid-mode scanner: the next character exists and is
not a literal open bracket (`iter.peek().map_or(false, ...)`). -/
def peekNotLBracket : List Char → Bool
  | [] => false
  | r :: _ => r ≠ '['

/-- The `while let` loop of the solid branch of `Colorer::color_text`:
`cs` is the opening tag text, the `Bool` argument is the `ignore` flag, and
the trailing `if !ignore { push(']') }` is folded into the base case. -/
def solidLoop (cs : List Char) : List Char → Bool → List Char
  | [], ignore => if ignore then [] else [']']
  | c :: rest, ignore =>
    if c = '[' then
      (if ignore then [] else [']']) ++ c :: solidLoop cs rest true
    else
      c :: (if c = ']' ∧ peekNotLBracket rest
            then cs ++ solidLoop cs rest false
            else solidLoop cs rest ignore)

/-- The `for` loop of the gradient branch of `Colorer::color_text`: `total` is
the character count of the whole message, `index` counts the characters that
were actually color-wrapped, and the `Bool` argument is the `ignore` flag. -/
def Colorer.gradientLoop (col : Colorer) (total : Nat) :
    List Char → Nat → Bool → Rng → Option (List Char × Rng)
  | [], _, _, rng => some ([], rng)
  | c :: rest, index, ignore, rng =>
    let ig := if c = '[' then true else ignore
    let igNext := if c = ']' then false else ig
    if ig then
      (Colorer.gradientLoop col total rest index igNext rng).map
        fun p => (c :: p.1, p.2)
    else
      match col.color c ((index : Rat) / (total : Rat)) rng with
      | none => none
      | some (piece, rng2) =>
        (Colorer.gradientLoop col total rest (index + 1) igNext rng2).map
          fun p => (piece ++ p.1, p.2)

/-- `Colorer::color_text` from `src/colorer.rs`.  Returns the new message plus
the colorer state after the call (the gradient branch redraws the phase shift
via `word`) and the advanced random stream; `none` models a panic. -/
def Colorer.colorText (col : Colorer) (rng : Rng) (text : List Char) :
    Option (List Char × Colorer × Rng) :=
  match col.solid with
  | some color =>
    let cs := '[' :: 'c' :: '/' :: (color.hex ++ [':'])
    let ignore0 := match text with
      | [] => true
      | c :: _ => c = '['
    some ((if ignore0 then [] else cs) ++ solidLoop cs text ignore0, col, rng)
  | none =>
    let wr := col.word rng
    (Colorer.gradientLoop wr.1 text.length text 0 false wr.2).map
      fun p => (p.1, wr.1, p.2)

/-- UTF-8 encoding of one character (`str::bytes` on a one-character string). -/
def utf8EncodeChar (c : Char) : List Nat :=
  let n := c.toNat
  if n < 128 then [n]
  else if n < 2048 then [192 + n / 64, 128 + n % 64]
  else if n < 65536 then [224 + n / 4096, 128 + n / 64 % 64, 128 + n % 64]
  else [240 + n / 262144, 128 + n / 4096 % 64, 128 + n / 64 % 64, 128 + n % 64]

/-- `String::bytes` of a message: UTF-8 bytes of all its characters. -/
def utf8Bytes (s : List Char) : List Nat :=
  (s.map utf8EncodeChar).flatten

/-- A byte is a UTF-8 continuation byte (`10xxxxxx`). -/
def isCont (b : Nat) : Bool :=
  128 ≤ b ∧ b < 192

/-- Allowed second byte of a three-byte UTF-8 sequence starting with `b0`. -/
def valid3Second (b0 b1 : Nat) : Bool :=
  if b0 = 224 then 160 ≤ b1 ∧ b1 < 192
  else if b0 = 237 then 128 ≤ b1 ∧ b1 < 160
  else isCont b1

/-- Allowed second byte of a four-byte UTF-8 sequence starting with `b0`. -/
def valid4Second (b0 b1 : Nat) : Bool :=
  if b0 = 240 then 144 ≤ b1 ∧ b1 < 192
  else if b0 = 244 then 128 ≤ b1 ∧ b1 < 144
  else isCont b1

/-- Width of the UTF-8 sequence introduced by lead byte `b`; `0` means the
byte can never start a valid sequence. -/
def utf8CharWidth (b : Nat) : Nat :=
  if b < 128 then 1
  else if b < 194 then 0
  else if b < 224 then 2
  else if b < 240 then 3
  else if b < 245 then 4
  else 0

/-- U+FFFD, the replacement character. -/
def replacementChar : Char :=
  Char.ofNat 65533

/-- `String::from_utf8_lossy` from the Rust standard library: decode bytes to
characters, substituting one U+FFFD for each maximal invalid subsequence
(including a truncated sequence at the end of the input). -/
def lossyDecode : List Nat → List Char
  | [] => []
  | b :: rest =>
    if b < 128 then Char.ofNat b :: lossyDecode rest
    else if utf8CharWidth b = 2 then
      match rest with
      | [] => [replacementChar]
      | b1 :: rest1 =>
        if isCont b1 then Char.ofNat ((b % 32) * 64 + b1 % 64) :: lossyDecode rest1
        else replacementChar :: lossyDecode (b1 :: rest1)
    else if utf8CharWidth b = 3 then
      match rest with
      | [] => [replacementChar]
      | b1 :: rest1 =>
        if valid3Second b b1 then
          match rest1 with
          | [] => [replacementChar]
          | b2 :: rest2 =>
            if isCont b2 then
              Char.ofNat ((b % 16) * 4096 + (b1 % 64) * 64 + b2 % 64) :: lossyDecode rest2
            else replacementChar :: lossyDecode (b2 :: rest2)
        else replacementChar :: lossyDecode (b1 :: rest1)
    else if utf8CharWidth b = 4 then
      match rest with
      | [] => [replacementChar]
      | b1 :: rest1 =>
        if valid4Second b b1 then
          match rest1 with
          | [] => [replacementChar]
          | b2 :: rest2 =>
            if isCont b2 then
              match rest2 with
              | [] => [replacementChar]
              | b3 :: rest3 =>
                if isCont b3 then
                  Char.ofNat ((b % 8) * 262144 + (b1 % 64) * 4096 + (b2 % 64) * 64 + b3 % 64)
                    :: lossyDecode rest3
                else replacementChar :: lossyDecode (b3 :: rest3)
            else replacementChar :: lossyDecode (b2 :: rest2)
        else replacementChar :: lossyDecode (b1 :: rest1)
    else replacementChar :: lossyDecode rest

/-- `ClientReader::terraria_type` from `src/main.rs`: the 1- or 2-byte length
encoder.  The argument is a `u32`; `as u8` truncation of the second byte is
the `% 256`. -/
def terraria_type (value : Nat) : List Nat :=
  let lengthMod := value % 128
  if value > 127 then
    [lengthMod + 128, value / 128 % 256]
  else
    [lengthMod]

/-- `ClientReader::CHAT_MESSAGE_HEADER`. -/
def CHAT_MESSAGE_HEADER : List Nat :=
  [0x52, 0x01, 0x00, 0x03, 0x53, 0x61, 0x79]

/-- `ClientReader::MESSAGE_POS`. -/
def MESSAGE_POS : Nat := 9

/-- `ClientReader::MINIMUM_SIZE`. -/
def MINIMUM_SIZE : Nat := 10

/-- `u16::to_le_bytes`. -/
def toLe16 (n : Nat) : List Nat :=
  [n % 256, n / 256 % 256]

/-- `ClientReader::change_chat` from `src/main.rs`: recolor the chat payload
and rebuild the packet.  The `as u16` and `as u32` casts are the mods. -/
def change_chat (col : Colorer) (rng : Rng) (buffer : List Nat) :
    Option (List Nat × Colorer × Rng) :=
  let fullLength := buffer.length - MESSAGE_POS
  let lengthLength := if fullLength > 128 then 2 else 1
  let realMsgPos := MESSAGE_POS + lengthLength
  let message := lossyDecode (buffer.drop realMsgPos)
  (col.colorText rng message).map fun p =>
    let newMessage := p.1
    let newLength := (utf8Bytes newMessage).length
    let encodedLength := terraria_type (newLength % 2 ^ 32)
    let payloadLength := (MESSAGE_POS + encodedLength.length + newLength) % 2 ^ 16
    (toLe16 payloadLength ++ CHAT_MESSAGE_HEADER ++ encodedLength ++ utf8Bytes newMessage,
      p.2.1, p.2.2)

/-- `ClientReader::handle_buffer` from `src/main.rs`: recolor exactly when the
buffer is at least `MINIMUM_SIZE` bytes and `buffer[2..9]` is the header. -/
def handle_buffer (col : Colorer) (rng : Rng) (buffer : List Nat) :
    Option (List Nat × Colorer × Rng) :=
  if MINIMUM_SIZE ≤ buffer.length ∧ (buffer.drop 2).take 7 = CHAT_MESSAGE_HEADER then
    change_chat col rng buffer
  else
    some (buffer, col, rng)

/-! ## Helper lemmas -/

/-- The encoded length field is always one or two bytes. -/
theorem terraria_type_length_le (value : Nat) : (terraria_type value).length ≤ 2 := by
  unfold terraria_type
  split <;> simp

/-- A character is a lowercase hexadecimal digit: a decimal digit or a letter
between `a` and `f`. -/
def isLowerHexDigit (ch : Char) : Bool :=
  ('0' ≤ ch ∧ ch ≤ '9') ∨ ('a' ≤ ch ∧ ch ≤ 'f')

/-- Every hex digit of an index below 16 is a lowercase hexadecimal digit. -/
theorem hexDigit_mem_lowercase :
    ∀ d < 16, isLowerHexDigit (hexDigit d) = true := by
  decide

/-! ## Claim theorems -/

/-- C3: for every value at most 127 the varint length encoder outputs exactly
one byte equal to the value; for every value strictly between 127 and 32768 it
outputs exactly two bytes, the first `(value mod 128) + 128` and the second
`value div 128`. -/
theorem c3_varint_encoder (value : Nat) :
    (value ≤ 127 → terraria_type value = [value]) ∧
    (127 < value → value < 32768 →
      terraria_type value = [value % 128 + 128, value / 128]) := by
  constructor
  · intro h
    unfold terraria_type
    rw [if_neg (by omega)]
    simp [Nat.mod_eq_of_lt (show value < 128 by omega)]
  · intro h1 h2
    unfold terraria_type
    rw [if_pos (by omega)]
    have hdiv : value / 128 < 256 := by omega
    simp [Nat.mod_eq_of_lt hdiv]

theorem c3_varint_encoder_witness :
    terraria_type 5 = [5] ∧ terraria_type 300 = [300 % 128 + 128, 300 / 128] :=
  ⟨(c3_varint_encoder 5).1 (by norm_num),
   (c3_varint_encoder 300).2 (by norm_num) (by norm_num)⟩

/-- C6: for every pair of colors and every amount, interpolating with the
`Cubic` strategy never returns normally (the `todo!()` panic, modelled as
`none`), while `Nearest` and `Linear` always return normally. -/
theorem c6_cubic_never_returns (c1 c2 : Color) (amount : Rat) (rng : Rng) :
    Color.interpolate c1 c2 amount .Cubic rng = none ∧
    (Color.interpolate c1 c2 amount .Nearest rng).isSome = true ∧
    (Color.interpolate c1 c2 amount .Linear rng).isSome = true :=
  ⟨rfl, rfl, rfl⟩

/-- C7: `Nearest` interpolation picks, independently for each of the three
channels, the first color's channel when the amount is below one half and the
second color's channel otherwise. -/
theorem c7_nearest_picks_by_half (c1 c2 : Color) (amount : Rat) (rng : Rng) :
    Color.interpolate c1 c2 amount .Nearest rng =
      some (⟨if amount < 1/2 then c1.r else c2.r,
             if amount < 1/2 then c1.g else c2.g,
             if amount < 1/2 then c1.b else c2.b⟩, rng) := rfl

/-- C10: in solid mode, recoloring the empty message yields the empty message:
no opening and no closing tag are emitted. -/
theorem c10_empty_message (c : Color) (sh : Option Rat) (itp : Interpolation)
    (rep : Rat) (rng : Rng) :
    Colorer.colorText ⟨[c], sh, itp, rep⟩ rng [] =
      some ([], ⟨[c], sh, itp, rep⟩, rng) := rfl

/-- C2: the framer is a pure passthrough (byte-identical buffer, unchanged
state) unless the buffer is at least 10 bytes long and bytes 2 through 8
equal the fixed chat header, and exactly in that case the recolor path
(`change_chat`) is taken. -/
theorem c2_passthrough_unless_chat (col : Colorer) (rng : Rng) (buffer : List Nat) :
    (¬ (MINIMUM_SIZE ≤ buffer.length ∧ (buffer.drop 2).take 7 = CHAT_MESSAGE_HEADER) →
      handle_buffer col rng buffer = some (buffer, col, rng)) ∧
    ((MINIMUM_SIZE ≤ buffer.length ∧ (buffer.drop 2).take 7 = CHAT_MESSAGE_HEADER) →
      handle_buffer col rng buffer = change_chat col rng buffer) := by
  constructor <;> intro h <;> simp [handle_buffer, h]

theorem c2_passthrough_unless_chat_witness :
    handle_buffer ⟨[⟨255, 0, 0⟩], none, .Linear, 1⟩ ⟨fun _ => 0, 0⟩ [1, 2, 3] =
      some ([1, 2, 3], ⟨[⟨255, 0, 0⟩], none, .Linear, 1⟩, ⟨fun _ => 0, 0⟩) :=
  (c2_passthrough_unless_chat _ _ _).1 (by decide)

/-- C4: solid-mode recoloring of `a[b]c` closes the open tag before the
literal open bracket, copies the bracketed span verbatim, and reopens a tag
right after the matching close bracket: opening tag, `a`, a closing `]`, the
literal `[b]`, a new opening tag, `c`, a closing `]`. -/
theorem c4_solid_bracket_spans (c : Color) (sh : Option Rat) (itp : Interpolation)
    (rep : Rat) (rng : Rng) :
    Colorer.colorText ⟨[c], sh, itp, rep⟩ rng ['a', '[', 'b', ']', 'c'] =
      some (('[' :: 'c' :: '/' :: (c.hex ++ [':'])) ++ ['a'] ++ [']'] ++ ['[', 'b', ']']
          ++ ('[' :: 'c' :: '/' :: (c.hex ++ [':'])) ++ ['c'] ++ [']'],
        ⟨[c], sh, itp, rep⟩, rng) := by
  simp [Colorer.colorText, Colorer.solid, solidLoop, peekNotLBracket]

/-- In solid mode, a text without brackets is copied verbatim by the scanner
loop, with the single pending closing bracket appended at the end. -/
theorem solidLoop_no_brackets (cs : List Char) (l : List Char)
    (h : ∀ ch ∈ l, ch ≠ '[' ∧ ch ≠ ']') :
    solidLoop cs l false = l ++ [']'] := by
  induction l with
  | nil => rfl
  | cons c rest ih =>
    have hc := h c (List.mem_cons_self c rest)
    have hrest : ∀ ch ∈ rest, ch ≠ '[' ∧ ch ≠ ']' :=
      fun ch hm => h ch (List.mem_cons_of_mem c hm)
    simp [solidLoop, hc.1, hc.2, ih hrest]

/-- C5: for every non-empty message without brackets, solid-mode recoloring
wraps the whole message in exactly one tag pair: `[c/`, the six lowercase hex
digits of the color, `:`, the message verbatim, and one closing `]`. -/
theorem c5_solid_single_wrap (c : Color) (sh : Option Rat) (itp : Interpolation)
    (rep : Rat) (rng : Rng) (text : List Char) (hne : text ≠ [])
    (hnb : ∀ ch ∈ text, ch ≠ '[' ∧ ch ≠ ']') :
    Colorer.colorText ⟨[c], sh, itp, rep⟩ rng text =
      some (('[' :: 'c' :: '/' :: (c.hex ++ [':'])) ++ text ++ [']'],
        ⟨[c], sh, itp, rep⟩, rng) ∧
    c.hex.length = 6 ∧
    ∀ ch ∈ c.hex, isLowerHexDigit ch = true := by
  refine ⟨?_, ?_, ?_⟩
  · match text, hne with
    | c0 :: rest, _ =>
      have hc0 : c0 ≠ '[' := (hnb c0 (List.mem_cons_self c0 rest)).1
      simp [Colorer.colorText, Colorer.solid, hc0, solidLoop_no_brackets _ _ hnb]
  · simp [Color.hex, hex2]
  · intro ch hch
    have hmem : ∀ n : Nat, ∀ ch ∈ hex2 n, isLowerHexDigit ch = true := by
      intro n ch hch
      simp only [hex2, List.mem_cons, List.not_mem_nil, or_false] at hch
      rcases hch with h | h <;> subst h <;>
        exact hexDigit_mem_lowercase _ (Nat.mod_lt _ (by norm_num))
    simp only [Color.hex, List.mem_append] at hch
    rcases hch with (h | h) | h
    · exact hmem c.r ch h
    · exact hmem c.g ch h
    · exact hmem c.b ch h

theorem c5_solid_single_wrap_witness :
    (['h', 'e', 'l', 'l', 'o'] : List Char) ≠ [] ∧
    Colorer.colorText ⟨[⟨255, 0, 0⟩], none, .Linear, 1⟩ ⟨fun _ => 0, 0⟩
        ['h', 'e', 'l', 'l', 'o'] =
      some (('[' :: 'c' :: '/' :: ((⟨255, 0, 0⟩ : Color).hex ++ [':']))
          ++ ['h', 'e', 'l', 'l', 'o'] ++ [']'],
        ⟨[⟨255, 0, 0⟩], none, .Linear, 1⟩, ⟨fun _ => 0, 0⟩) :=
  ⟨by decide,
   (c5_solid_single_wrap ⟨255, 0, 0⟩ none .Linear 1 ⟨fun _ => 0, 0⟩
     ['h', 'e', 'l', 'l', 'o'] (by decide) (by decide)).1⟩

/-- Every strategy except `Cubic` returns normally from color interpolation. -/
theorem interpolate_isSome (c1 c2 : Color) (amount : Rat) (itp : Interpolation)
    (rng : Rng) (h : itp ≠ .Cubic) :
    (Color.interpolate c1 c2 amount itp rng).isSome = true := by
  cases itp <;> simp_all [Color.interpolate]

/-- `Colorer::color` returns normally whenever the strategy is not `Cubic`. -/
theorem color_isSome (col : Colorer) (c : Char) (position : Rat) (rng : Rng)
    (h : col.interpolation ≠ .Cubic) :
    (col.color c position rng).isSome = true := by
  unfold Colorer.color
  split
  · rfl
  · simp only [Option.isSome_map']
    split
    · rfl
    · exact interpolate_isSome _ _ _ _ _ h

/-- The gradient scanning loop returns normally whenever the strategy is not
`Cubic`. -/
theorem gradientLoop_isSome (col : Colorer) (h : col.interpolation ≠ .Cubic)
    (total : Nat) :
    ∀ (l : List Char) (index : Nat) (ignore : Bool) (rng : Rng),
      (Colorer.gradientLoop col total l index ignore rng).isSome = true := by
  intro l
  induction l with
  | nil => intro index ignore rng; rfl
  | cons c rest ih =>
    intro index ignore rng
    unfold Colorer.gradientLoop
    by_cases hbr : c = '['
    · simp [hbr, Option.isSome_map', ih]
    · by_cases hig : ignore = true
      · simp [hbr, hig, Option.isSome_map', ih]
      · have hig2 : ignore = false := by simpa using hig
        obtain ⟨⟨piece, rng2⟩, hp⟩ := Option.isSome_iff_exists.mp
          (color_isSome col c ((index : Rat) / (total : Rat)) rng h)
        simp [hbr, hig2, hp, Option.isSome_map', ih]

/-- Redrawing the phase shift changes neither the colors nor the strategy. -/
theorem word_preserves (col : Colorer) (rng : Rng) :
    (col.word rng).1.colors = col.colors ∧
    (col.word rng).1.interpolation = col.interpolation := by
  unfold Colorer.word
  cases col.shift <;> exact ⟨rfl, rfl⟩

/-- `Colorer::color_text` returns normally whenever the strategy is not
`Cubic`. -/
theorem colorText_isSome (col : Colorer) (rng : Rng) (text : List Char)
    (h : col.interpolation ≠ .Cubic) :
    (col.colorText rng text).isSome = true := by
  unfold Colorer.colorText
  split
  · rfl
  · simp only [Option.isSome_map']
    exact gradientLoop_isSome _ (by rw [(word_preserves col rng).2]; exact h) _ _ _ _ _

/-- C8: for every buffer classified as a chat packet and every colorer whose
strategy is not `Cubic`, the recolor path returns normally; in particular the
inferred message offset `9 + lengthFieldWidth` never exceeds the buffer
length, and the lossy UTF-8 decode is a total function. -/
theorem c8_recolor_path_safe (col : Colorer) (rng : Rng) (buffer : List Nat)
    (hsize : MINIMUM_SIZE ≤ buffer.length)
    (hhdr : (buffer.drop 2).take 7 = CHAT_MESSAGE_HEADER)
    (hcub : col.interpolation ≠ .Cubic) :
    MESSAGE_POS + (if buffer.length - MESSAGE_POS > 128 then 2 else 1) ≤ buffer.length ∧
    (handle_buffer col rng buffer).isSome = true := by
  constructor
  · unfold MESSAGE_POS
    unfold MINIMUM_SIZE at hsize
    split <;> omega
  · unfold handle_buffer
    rw [if_pos ⟨hsize, hhdr⟩]
    unfold change_chat
    simp only [Option.isSome_map']
    exact colorText_isSome _ _ _ hcub

theorem c8_recolor_path_safe_witness :
    MESSAGE_POS + (if ([20, 0, 0x52, 1, 0, 3, 0x53, 0x61, 0x79, 2, 104, 105] : List Nat).length
        - MESSAGE_POS > 128 then 2 else 1) ≤
      ([20, 0, 0x52, 1, 0, 3, 0x53, 0x61, 0x79, 2, 104, 105] : List Nat).length ∧
    (handle_buffer ⟨[⟨255, 0, 0⟩], none, .Linear, 1⟩ ⟨fun _ => 0, 0⟩
      [20, 0, 0x52, 1, 0, 3, 0x53, 0x61, 0x79, 2, 104, 105]).isSome = true :=
  c8_recolor_path_safe ⟨[⟨255, 0, 0⟩], none, .Linear, 1⟩ ⟨fun _ => 0, 0⟩
    [20, 0, 0x52, 1, 0, 3, 0x53, 0x61, 0x79, 2, 104, 105]
    (by decide) (by decide) (by decide)

/-- `Linear` and `Nearest` interpolation draw no randomness: the result color
is a function of the inputs alone and the stream is untouched. -/
theorem interpolate_pure (c1 c2 : Color) (amount : Rat) (itp : Interpolation)
    (h : itp = .Linear ∨ itp = .Nearest) :
    ∃ c : Color, ∀ rng : Rng, Color.interpolate c1 c2 amount itp rng = some (c, rng) := by
  rcases h with h | h <;> subst h
  · exact ⟨_, fun rng => rfl⟩
  · exact ⟨_, fun rng => rfl⟩

/-- With a `Linear` or `Nearest` strategy, `Colorer::interpolate` draws no
randomness. -/
theorem colorerInterpolate_pure (col : Colorer)
    (h : col.interpolation = .Linear ∨ col.interpolation = .Nearest)
    (left right : Nat) (amount : Rat) :
    ∃ c : Color, ∀ rng : Rng, col.interpolate left right amount rng = some (c, rng) := by
  obtain ⟨c, hc⟩ := interpolate_pure (col.colors.getD left ⟨0, 0, 0⟩)
    (col.colors.getD (if right ≥ col.colors.length then 0 else right) ⟨0, 0, 0⟩)
    amount col.interpolation h
  exact ⟨c, fun rng => hc rng⟩

/-- With a `Linear` or `Nearest` strategy, `Colorer::color` draws no
randomness. -/
theorem color_pure (col : Colorer)
    (h : col.interpolation = .Linear ∨ col.interpolation = .Nearest)
    (c : Char) (position : Rat) :
    ∃ s : List Char, ∀ rng : Rng, col.color c position rng = some (s, rng) := by
  by_cases hsp : c = ' '
  · exact ⟨[c], fun rng => by simp [Colorer.color, hsp]⟩
  by_cases hone : col.colors.length = 1
  · refine ⟨'[' :: 'c' :: '/' :: ((col.colors.getD 0 ⟨0, 0, 0⟩).hex ++ [':'] ++ [c] ++ [']']),
      fun rng => ?_⟩
    simp [Colorer.color, hsp, hone]
  · obtain ⟨cres, hres⟩ := colorerInterpolate_pure col h
      (floorToUsize (col.colorPositionOf position) % col.colors.length)
      (ceilToUsize (col.colorPositionOf position) % col.colors.length)
      (ratFract (col.colorPositionOf position))
    refine ⟨'[' :: 'c' :: '/' :: (cres.hex ++ [':'] ++ [c] ++ [']']), fun rng => ?_⟩
    simp only [Colorer.color, if_neg hsp, if_neg hone, hres rng, Option.map_some]
    rfl

/-- With a `Linear` or `Nearest` strategy the gradient scanning loop draws no
randomness: the output text is a function of the colorer, the message and the
counters, and the stream comes back untouched. -/
theorem gradientLoop_pure (col : Colorer)
    (h : col.interpolation = .Linear ∨ col.interpolation = .Nearest) (total : Nat) :
    ∀ (l : List Char) (index : Nat) (ignore : Bool),
      ∃ s : List Char, ∀ rng : Rng,
        Colorer.gradientLoop col total l index ignore rng = some (s, rng) := by
  intro l
  induction l with
  | nil => exact fun index ignore => ⟨[], fun rng => rfl⟩
  | cons c rest ih =>
    intro index ignore
    by_cases hbr : c = '['
    · obtain ⟨s, hs⟩ := ih index true
      refine ⟨c :: s, fun rng => ?_⟩
      simp [Colorer.gradientLoop, hbr, hs rng]
    · by_cases hrb : c = ']'
      · subst hrb
        by_cases hig : ignore = true
        · obtain ⟨s, hs⟩ := ih index false
          refine ⟨']' :: s, fun rng => ?_⟩
          simp [Colorer.gradientLoop, hbr, hig, hs rng]
        · have hig2 : ignore = false := by simpa using hig
          obtain ⟨piece, hpiece⟩ := color_pure col h ']' ((index : Rat) / (total : Rat))
          obtain ⟨s, hs⟩ := ih (index + 1) false
          refine ⟨piece ++ s, fun rng => ?_⟩
          simp [Colorer.gradientLoop, hbr, hig2, hpiece rng, hs rng]
      · by_cases hig : ignore = true
        · obtain ⟨s, hs⟩ := ih index true
          refine ⟨c :: s, fun rng => ?_⟩
          simp [Colorer.gradientLoop, hbr, hrb, hig, hs rng]
        · have hig2 : ignore = false := by simpa using hig
          obtain ⟨piece, hpiece⟩ := color_pure col h c ((index : Rat) / (total : Rat))
          obtain ⟨s, hs⟩ := ih (index + 1) false
          refine ⟨piece ++ s, fun rng => ?_⟩
          simp [Colorer.gradientLoop, hbr, hrb, hig2, hpiece rng, hs rng]

/-- C9: with phase shift disabled and a `Linear` or `Nearest` strategy,
`color_text` is deterministic — the output text does not depend on the random
stream — and the call leaves the colorer state (colors, shift, strategy,
repeat factor) unchanged and the stream untouched. -/
theorem c9_deterministic (col : Colorer) (hsh : col.shift = none)
    (hitp : col.interpolation = .Linear ∨ col.interpolation = .Nearest)
    (text : List Char) :
    ∃ s : List Char, ∀ rng : Rng, col.colorText rng text = some (s, col, rng) := by
  have hword : ∀ rng : Rng, col.word rng = (col, rng) := by
    intro rng
    unfold Colorer.word
    rw [hsh]
  unfold Colorer.colorText
  cases hsolid : col.solid with
  | some color =>
    exact ⟨_, fun rng => rfl⟩
  | none =>
    obtain ⟨s, hs⟩ := gradientLoop_pure col hitp text.length text 0 false
    refine ⟨s, fun rng => ?_⟩
    rw [hword rng]
    simp [hs rng]

theorem c9_deterministic_witness :
    ∃ s : List Char, ∀ rng : Rng,
      Colorer.colorText ⟨[⟨255, 0, 0⟩, ⟨0, 0, 255⟩], none, .Linear, 1⟩ rng ['a', 'b'] =
        some (s, ⟨[⟨255, 0, 0⟩, ⟨0, 0, 255⟩], none, .Linear, 1⟩, rng) :=
  c9_deterministic ⟨[⟨255, 0, 0⟩, ⟨0, 0, 255⟩], none, .Linear, 1⟩ rfl (Or.inl rfl) ['a', 'b']

/-- C1: for every buffer classified as a chat packet, the output packet is the
2-byte little-endian total length `9 + encodedLengthFieldBytes + newTextBytes`
(recomputed from the new text, never copied from the input), then the 7-byte
chat header, then the newly encoded length field, then the recolored text
bytes.  `s` is the recolored text produced by `color_text`. -/
theorem c1_chat_packet_rebuild (col : Colorer) (rng : Rng) (buffer : List Nat)
    (s : List Char) (col2 : Colorer) (rng2 : Rng)
    (hsize : MINIMUM_SIZE ≤ buffer.length)
    (hhdr : (buffer.drop 2).take 7 = CHAT_MESSAGE_HEADER)
    (hc : col.colorText rng (lossyDecode (buffer.drop
      (MESSAGE_POS + (if buffer.length - MESSAGE_POS > 128 then 2 else 1)))) =
        some (s, col2, rng2))
    (hsmall : (utf8Bytes s).length < 65525) :
    handle_buffer col rng buffer =
      some (toLe16 (9 + (terraria_type (utf8Bytes s).length).length + (utf8Bytes s).length)
        ++ CHAT_MESSAGE_HEADER ++ terraria_type (utf8Bytes s).length ++ utf8Bytes s,
        col2, rng2) := by
  unfold handle_buffer
  rw [if_pos ⟨hsize, hhdr⟩]
  simp only [change_chat]
  rw [hc]
  have h32 : (utf8Bytes s).length % 2 ^ 32 = (utf8Bytes s).length :=
    Nat.mod_eq_of_lt (by omega)
  have hterr := terraria_type_length_le (utf8Bytes s).length
  have h16 : (MESSAGE_POS + (terraria_type (utf8Bytes s).length).length
        + (utf8Bytes s).length) % 2 ^ 16
      = MESSAGE_POS + (terraria_type (utf8Bytes s).length).length + (utf8Bytes s).length := by
    unfold MESSAGE_POS at *
    exact Nat.mod_eq_of_lt (by omega)
  show some (toLe16 ((MESSAGE_POS + (terraria_type ((utf8Bytes s).length % 2 ^ 32)).length
        + (utf8Bytes s).length) % 2 ^ 16) ++ CHAT_MESSAGE_HEADER
        ++ terraria_type ((utf8Bytes s).length % 2 ^ 32) ++ utf8Bytes s, col2, rng2)
      = some (toLe16 (9 + (terraria_type (utf8Bytes s).length).length + (utf8Bytes s).length)
        ++ CHAT_MESSAGE_HEADER ++ terraria_type (utf8Bytes s).length ++ utf8Bytes s,
        col2, rng2)
  rw [h32, h16]
  rfl

theorem c1_chat_packet_rebuild_witness :
    handle_buffer ⟨[⟨255, 0, 0⟩], none, .Linear, 1⟩ ⟨fun _ => 0, 0⟩
        [20, 0, 0x52, 1, 0, 3, 0x53, 0x61, 0x79, 2, 104, 105] =
      some (toLe16 (9 + (terraria_type (utf8Bytes "[c/ff0000:hi]".data).length).length
          + (utf8Bytes "[c/ff0000:hi]".data).length)
        ++ CHAT_MESSAGE_HEADER ++ terraria_type (utf8Bytes "[c/ff0000:hi]".data).length
        ++ utf8Bytes "[c/ff0000:hi]".data,
        ⟨[⟨255, 0, 0⟩], none, .Linear, 1⟩, ⟨fun _ => 0, 0⟩) :=
  c1_chat_packet_rebuild ⟨[⟨255, 0, 0⟩], none, .Linear, 1⟩ ⟨fun _ => 0, 0⟩
    [20, 0, 0x52, 1, 0, 3, 0x53, 0x61, 0x79, 2, 104, 105]
    "[c/ff0000:hi]".data ⟨[⟨255, 0, 0⟩], none, .Linear, 1⟩ ⟨fun _ => 0, 0⟩
    (by decide) (by decide) rfl (by decide)
